import Mathlib

/-!
Verification development for the AI-orchestration slice of the
berserk-coach repository: the intent extractor (`AICoreService.parseResponse`),
the conversation memory engine (`MemoryEngine`), the persona store
(`PersonalityEngine`) and the remote-completion request builder
(`AICoreService.callOpenAI`).

The TypeScript sources are embedded shallowly: strings are `List Char`
(wrapped in `String` at the interfaces), JavaScript string operations
(`trim`, `split` with a limit, `replace` of the first occurrence,
`String.length` counting UTF-16 code units) are modelled by executable
functions that follow the ECMAScript semantics the code relies on, and
`JSON.parse` is modelled by an executable JSON-grammar parser.
-/

/-! ## JavaScript string primitives -/

/-- The ECMAScript whitespace set used by `String.prototype.trim` and by the
regex class `\s`: WhiteSpace ∪ LineTerminator. -/
def isJsWs (c : Char) : Bool :=
  c = ' ' || c = '\t' || c = '\n' || c = '\r' ||
  c = '\x0b' || c = '\x0c' || c = '\u00a0' ||
  c = '\u1680' ||
  (0x2000 ≤ c.toNat && c.toNat ≤ 0x200a) ||
  c = '\u2028' || c = '\u2029' || c = '\u202f' || c = '\u205f' ||
  c = '\u3000' || c = '\ufeff'

/-- `s.trimStart()` on code points. -/
def jsTrimLeft (s : List Char) : List Char := s.dropWhile isJsWs

/-- `s.trimEnd()` on code points. -/
def jsTrimRight (s : List Char) : List Char :=
  (s.reverse.dropWhile isJsWs).reverse

/-- JavaScript `s.trim()`. -/
def jsTrim (s : List Char) : List Char := jsTrimRight (jsTrimLeft s)

/-- UTF-16 size of one code point (JS `String.length` counts UTF-16 units). -/
def utf16Size (c : Char) : Nat := if c.toNat < 0x10000 then 1 else 2

/-- JS `String.length`: number of UTF-16 code units. -/
def utf16Len (s : List Char) : Nat := (s.map utf16Size).sum

/-- Index of the first occurrence of `pat` in `s` (`String.indexOf`),
`none` if `pat` does not occur. -/
def findSub (pat : List Char) : List Char → Option Nat
  | [] => if pat.isEmpty then some 0 else none
  | c :: rest =>
    if pat.isPrefixOf (c :: rest) then some 0
    else (findSub pat rest).map Nat.succ

/-- JS `s.replace(pat, '')` with a plain-string pattern: removes the first
occurrence of `pat`, or returns `s` unchanged if `pat` does not occur. -/
def removeFirst (pat s : List Char) : List Char :=
  match findSub pat s with
  | some i => s.take i ++ s.drop (i + pat.length)
  | none => s

/-- Split on every occurrence of the single character `sep`
(JS `s.split(sep)` for a one-character string separator: no run merging,
empty pieces kept). -/
def splitOnCharList (sep : Char) : List Char → List (List Char)
  | [] => [[]]
  | c :: rest =>
    let r := splitOnCharList sep rest
    if c = sep then [] :: r
    else
      match r with
      | [] => [[c]]
      | h :: t => (c :: h) :: t

/-- JS `s.split(sep, limit)`: split fully, keep only the first `limit`
pieces (the remainder is discarded, not appended to the last piece). -/
def jsSplitLimit (sep : Char) (limit : Nat) (s : List Char) : List (List Char) :=
  (splitOnCharList sep s).take limit

/-! ## JSON values and `JSON.parse`

`JSON.parse` is modelled by a recursive-descent parser over the JSON
grammar (ECMA-404).  Numbers are kept as exact rationals (JavaScript
converts them to doubles; none of the verified properties depend on the
rounding).  Object member lists keep JS object semantics on duplicate
keys: the last duplicate wins, at the position of the first.
A `\uXXXX` escape that is an unpaired surrogate is rejected (Lean chars
are Unicode scalar values); no verified property depends on that corner. -/

inductive Json where
  | null : Json
  | bool : Bool → Json
  | num : ℚ → Json
  | str : List Char → Json
  | arr : List Json → Json
  | obj : List (List Char × Json) → Json

/-- JSON insignificant whitespace (ECMA-404: only these four). -/
def isJsonWs (c : Char) : Bool :=
  c = ' ' || c = '\t' || c = '\n' || c = '\r'

def skipJsonWs (s : List Char) : List Char := s.dropWhile isJsonWs

def isJsonDigit (c : Char) : Bool := '0' ≤ c && c ≤ '9'

def digitVal (c : Char) : Nat := c.toNat - '0'.toNat

/-- Parse a nonempty digit run; returns its value, its length and the rest. -/
def parseDigits : List Char → Option (Nat × Nat × List Char)
  | c :: rest =>
    if isJsonDigit c then
      match parseDigits rest with
      | some (v, k, r) => some (digitVal c * 10 ^ k + v, k + 1, r)
      | none => some (digitVal c, 1, rest)
    else none
  | [] => none

/-- Strict check needed by the JSON grammar: after the leading digits of an
`int`, a `0` must not be followed by another digit. -/
def parseJsonInt (s : List Char) : Option (Nat × Nat × List Char) :=
  match s with
  | '0' :: rest =>
    match rest with
    | c :: _ => if isJsonDigit c then none else some (0, 1, rest)
    | [] => some (0, 1, [])
  | _ => parseDigits s

/-- Parse a JSON number literal into an exact rational. -/
def parseJsonNumber (s : List Char) : Option (ℚ × List Char) := do
  let (neg, s1) :=
    match s with
    | '-' :: r => (true, r)
    | _ => (false, s)
  let (ipart, _, s2) ← parseJsonInt s1
  let (fracNum, fracDigits, s3) :=
    match s2 with
    | '.' :: r =>
      match parseDigits r with
      | some (v, k, r') => (v, k, r')
      | none => (0, 0, s2)
    | _ => (0, 0, s2)
  -- a '.' must be followed by at least one digit
  match s2 with
  | '.' :: r =>
    match parseDigits r with
    | some _ => pure ()
    | none => none
  | _ => pure ()
  let (expOk, expNeg, expVal, s4) :=
    match s3 with
    | 'e' :: r | 'E' :: r =>
      let (en, r1) :=
        match r with
        | '+' :: r' => (false, r')
        | '-' :: r' => (true, r')
        | _ => (false, r)
      match parseDigits r1 with
      | some (v, _, r') => (true, en, v, r')
      | none => (false, false, 0, s3)
    | _ => (true, false, 0, s3)
  -- an 'e' must be followed by digits
  match s3 with
  | 'e' :: _ | 'E' :: _ =>
    if expOk then pure () else none
  | _ => pure ()
  let base : ℚ := (ipart : ℚ) + (fracNum : ℚ) / (10 ^ fracDigits : ℚ)
  let scaled : ℚ := if expNeg then base / 10 ^ expVal else base * 10 ^ expVal
  pure (if neg then -scaled else scaled, s4)

/-- Value of one hexadecimal digit (`0-9`, `a-f`, `A-F`), by code point. -/
def hexVal (c : Char) : Option Nat :=
  let n := c.toNat
  if 48 ≤ n ∧ n ≤ 57 then some (n - 48)
  else if 97 ≤ n ∧ n ≤ 102 then some (n - 87)
  else if 65 ≤ n ∧ n ≤ 70 then some (n - 55)
  else none

def parseHex4 : List Char → Option (Nat × List Char)
  | h1 :: h2 :: h3 :: h4 :: rest =>
    match hexVal h1, hexVal h2, hexVal h3, hexVal h4 with
    | some v1, some v2, some v3, some v4 =>
      some (v1 * 4096 + v2 * 256 + v3 * 16 + v4, rest)
    | _, _, _, _ => none
  | _ => none

/-- Parse the body of a JSON string literal (after the opening quote),
up to and including the closing quote. -/
def parseJsonStringBody (fuel : Nat) (s : List Char) : Option (List Char × List Char) :=
  match fuel with
  | 0 => none
  | fuel + 1 =>
    match s with
    | [] => none
    | '"' :: rest => some ([], rest)
    | '\\' :: e :: rest =>
      let simple : Option Char :=
        match e with
        | '"' => some '"'
        | '\\' => some '\\'
        | '/' => some '/'
        | 'b' => some '\x08'
        | 'f' => some '\x0c'
        | 'n' => some '\n'
        | 'r' => some '\r'
        | 't' => some '\t'
        | _ => none
      match simple with
      | some c => do
        let (tail, r) ← parseJsonStringBody fuel rest
        some (c :: tail, r)
      | none =>
        if e = 'u' then do
          let (v, r1) ← parseHex4 rest
          if 0xd800 ≤ v ∧ v ≤ 0xdbff then
            -- high surrogate: require a paired low surrogate
            match r1 with
            | '\\' :: 'u' :: r2 => do
              let (w, r3) ← parseHex4 r2
              if 0xdc00 ≤ w ∧ w ≤ 0xdfff then do
                let n := 0x10000 + (v - 0xd800) * 0x400 + (w - 0xdc00)
                if h : n.isValidChar then do
                  let (tail, r) ← parseJsonStringBody fuel r3
                  some (Char.ofNatAux n h :: tail, r)
                else none
              else none
            | _ => none
          else if h : v.isValidChar then do
            let (tail, r) ← parseJsonStringBody fuel r1
            some (Char.ofNatAux v h :: tail, r)
          else none
        else none
    | c :: rest =>
      if c.toNat < 0x20 then none
      else do
        let (tail, r) ← parseJsonStringBody fuel rest
        some (c :: tail, r)

/-- JS object assignment on a member list: a repeated key overwrites the
value but keeps the original position. -/
def objAssign (k : List Char) (v : Json) : List (List Char × Json) → List (List Char × Json)
  | [] => [(k, v)]
  | (k', v') :: rest =>
    if k' = k then (k', v) :: rest else (k', v') :: objAssign k v rest

mutual

/-- Parse one JSON value (leading whitespace allowed). -/
def parseJsonValue (fuel : Nat) (s : List Char) : Option (Json × List Char) :=
  match fuel with
  | 0 => none
  | fuel + 1 =>
    match skipJsonWs s with
    | [] => none
    | c :: rest =>
      if c = '"' then do
        let (cs, r) ← parseJsonStringBody (rest.length + 1) rest
        some (Json.str cs, r)
      else if c = '\x7b' then
        match skipJsonWs rest with
        | '\x7d' :: r => some (Json.obj [], r)
        | _ => do
          let (ms, r) ← parseJsonMembers fuel rest []
          some (Json.obj ms, r)
      else if c = '[' then
        match skipJsonWs rest with
        | ']' :: r => some (Json.arr [], r)
        | _ => do
          let (es, r) ← parseJsonElements fuel rest
          some (Json.arr es, r)
      else if c = 't' then
        match rest with
        | 'r' :: 'u' :: 'e' :: r => some (Json.bool true, r)
        | _ => none
      else if c = 'f' then
        match rest with
        | 'a' :: 'l' :: 's' :: 'e' :: r => some (Json.bool false, r)
        | _ => none
      else if c = 'n' then
        match rest with
        | 'u' :: 'l' :: 'l' :: r => some (Json.null, r)
        | _ => none
      else do
        let (q, r) ← parseJsonNumber (c :: rest)
        some (Json.num q, r)

/-- Parse the members of an object, after `{` (at least one member). -/
def parseJsonMembers (fuel : Nat) (s : List Char)
    (acc : List (List Char × Json)) : Option (List (List Char × Json) × List Char) :=
  match fuel with
  | 0 => none
  | fuel + 1 =>
    match skipJsonWs s with
    | '"' :: rest => do
      let (k, r1) ← parseJsonStringBody (rest.length + 1) rest
      match skipJsonWs r1 with
      | ':' :: r2 => do
        let (v, r3) ← parseJsonValue fuel r2
        let acc' := objAssign k v acc
        match skipJsonWs r3 with
        | ',' :: r4 => parseJsonMembers fuel r4 acc'
        | '\x7d' :: r4 => some (acc', r4)
        | _ => none
      | _ => none
    | _ => none

/-- Parse the elements of an array, after `[` (at least one element). -/
def parseJsonElements (fuel : Nat) (s : List Char) : Option (List Json × List Char) :=
  match fuel with
  | 0 => none
  | fuel + 1 => do
    let (v, r1) ← parseJsonValue fuel s
    match skipJsonWs r1 with
    | ',' :: r2 => do
      let (vs, r) ← parseJsonElements fuel r2
      some (v :: vs, r)
    | ']' :: r2 => some ([v], r2)
    | _ => none

end

/-- `JSON.parse(s)`: parse one value, allow trailing whitespace, require
the whole input to be consumed. -/
def jsonParse (s : List Char) : Option Json :=
  match parseJsonValue (s.length + 1) s with
  | some (v, rest) => if (skipJsonWs rest).isEmpty then some v else none
  | none => none

/-! ## Intent extractor (`AICoreService.parseResponse`)

The source scans its input with the regex `/<system>(.*?)<\/system>/gs`:
successive non-overlapping leftmost matches, the lazy group ending at the
first following `</system>`.  For each match it trims the group, splits it
with `split(':', 2)`, parses the (trimmed) payload with `JSON.parse`
(an absent or empty payload yields `{}`), and on success records the
intent and deletes the first occurrence of the whole match from the
accumulating clean text; a match whose payload fails to parse is skipped
and stays in the clean text.  The clean text is finally trimmed. -/

/-- A parsed system intent: `{action, data}`. -/
structure SystemIntent where
  action : List Char
  data : Json

/-- The opening marker `<system>`. -/
def sysOpen : List Char := "<system>".data

/-- The closing marker `</system>`. -/
def sysClose : List Char := "</system>".data

/-- All successive matches of `/<system>(.*?)<\/system>/gs`, scanning left
to right and restarting after the end of each match; each match is
returned as `(whole match, lazy group)`.  `fuel` dominates the number of
matches (each match consumes at least 17 characters). -/
def scanMatches (fuel : Nat) (s : List Char) : List (List Char × List Char) :=
  match fuel with
  | 0 => []
  | fuel + 1 =>
    match findSub sysOpen s with
    | none => []
    | some i =>
      let afterOpen := s.drop (i + 8)
      match findSub sysClose afterOpen with
      | none => []
      | some j =>
        let inner := afterOpen.take j
        let whole := (s.drop i).take (8 + j + 9)
        (whole, inner) :: scanMatches fuel (s.drop (i + 8 + j + 9))

/-- The body of the per-match `try` block: trim the group, split on `:`
with limit 2, `JSON.parse` the trimmed payload (an `undefined` or empty
payload gives `{}`); `none` when `JSON.parse` throws. -/
def parseIntent (group : List Char) : Option SystemIntent :=
  let intentText := jsTrim group
  match jsSplitLimit ':' 2 intentText with
  | [action] => some ⟨jsTrim action, Json.obj []⟩
  | [action, dataStr] =>
    if dataStr.isEmpty then some ⟨jsTrim action, Json.obj []⟩
    else
      match jsonParse (jsTrim dataStr) with
      | some data => some ⟨jsTrim action, data⟩
      | none => none
  | _ => some ⟨jsTrim intentText, Json.obj []⟩

/-- The `while` loop of `parseResponse`: for each match, on payload-parse
success push the intent and delete the first occurrence of the whole
match from the clean text; on failure leave both untouched. -/
def processMatches : List (List Char × List Char) → List Char →
    List Char × List SystemIntent
  | [], clean => (clean, [])
  | (whole, group) :: rest, clean =>
    match parseIntent group with
    | some intent =>
      let (c, intents) := processMatches rest (removeFirst whole clean)
      (c, intent :: intents)
    | none => processMatches rest clean

/-- `AICoreService.parseResponse`: extract the tagged system intents and
the remaining user-visible text. -/
def parseResponse (response : String) : String × List SystemIntent :=
  let s := response.data
  let (clean, intents) := processMatches (scanMatches (s.length + 1) s) s
  (⟨jsTrim clean⟩, intents)

/-- `s` contains an occurrence of the marker pair: an opening `<system>`
with a closing `</system>` somewhere after it. -/
def HasMarkerPair (s : List Char) : Prop :=
  ∃ i ∈ List.range (s.length + 1), sysOpen.isPrefixOf (s.drop i) ∧
    ∃ j ∈ List.range (s.length + 1),
      sysClose.isPrefixOf ((s.drop (i + 8)).drop j)

instance (s : List Char) : Decidable (HasMarkerPair s) := by
  unfold HasMarkerPair
  infer_instance

/-! ## Conversation memory (`MemoryEngine`)

`AsyncStorage` is a flat string-keyed store.  The engine keeps three kinds
of values: the per-conversation message log (key `conv_<id>`), one
memory item per indexed message (key `memory_<messageId>`), and the
per-conversation list of indexed message ids (key `memory_index_<id>`).
The store is modelled as an association list from keys to typed values;
a key holding a value of an unexpected shape corresponds to a stored
JSON blob that the engine's `JSON.parse`-and-use code path would choke
on, and is handled the way the surrounding `try`/`catch` does.
Write failures of `AsyncStorage.setItem` are modelled by an oracle
`f : String → Bool` (`true` = the write of that key throws); reads are
assumed to succeed. -/

inductive MessageRole where
  | user : MessageRole
  | assistant : MessageRole
  | system : MessageRole
  deriving DecidableEq

structure Message where
  id : String
  role : MessageRole
  content : String
  timestamp : String
  metadata : Option Json

structure MemoryItem where
  id : String
  conversationId : String
  content : String
  timestamp : String
  role : MessageRole
  keywords : List String

inductive StoreVal where
  | msgs : List Message → StoreVal
  | item : MemoryItem → StoreVal
  | ids : List String → StoreVal

abbrev Store := List (String × StoreVal)

/-- Lookup in a string-keyed association list (the first binding wins,
and the write operations keep keys unique). -/
def alGet {α : Type} (m : List (String × α)) (k : String) : Option α :=
  (m.find? (fun e => e.1 == k)).map (·.2)

/-- In-place update of an existing key, append of a new one — the order
JS `Map.set` and a read-modify-write of a JSON blob both keep. -/
def alSet {α : Type} (m : List (String × α)) (k : String) (v : α) :
    List (String × α) :=
  match m with
  | [] => [(k, v)]
  | (k', v') :: rest => if k' == k then (k, v) :: rest else (k', v') :: alSet rest k v

def alDel {α : Type} (m : List (String × α)) (k : String) : List (String × α) :=
  m.filter (fun e => !(e.1 == k))

def getK (st : Store) (k : String) : Option StoreVal := alGet st k

def setK (st : Store) (k : String) (v : StoreVal) : Store := alSet st k v

def removeK (st : Store) (k : String) : Store := alDel st k

def convKey (cid : String) : String := "conv_" ++ cid

def memKey (id : String) : String := "memory_" ++ id

def memIndexKey (cid : String) : String := "memory_index_" ++ cid

/-! ### Keyword extraction (`MemoryEngine.extractKeywords`)

`text.toLowerCase().replace(/[^\wа-яё\s]/gi, '').split(/\s+/)` followed by
the length and stop-word filters.  `toLowerCase` is modelled on the
alphabets the regex class keeps (ASCII and Cyrillic); exotic one-to-many
Unicode lowercasings (e.g. U+0130) are not modelled — they can only
affect which keywords a memory item carries, which no verified property
inspects. -/

def jsToLower (c : Char) : Char :=
  if 'A' ≤ c ∧ c ≤ 'Z' then Char.ofNat (c.toNat + 32)
  else if 'А' ≤ c ∧ c ≤ 'Я' then Char.ofNat (c.toNat + 32)
  else if c = 'Ё' then 'ё'
  else c

/-- The character class `[\wа-яё\s]` under the `i` flag: ASCII word
characters, Cyrillic а–я / А–Я and ё/Ё, and regex whitespace. -/
def isKeptByKeywordRegex (c : Char) : Bool :=
  ('a' ≤ c && c ≤ 'z') || ('A' ≤ c && c ≤ 'Z') || ('0' ≤ c && c ≤ '9') ||
  c = '_' ||
  ('а' ≤ c && c ≤ 'я') || ('А' ≤ c && c ≤ 'Я') || c = 'ё' || c = 'Ё' ||
  isJsWs c

/-- Split on every single character satisfying `p`, keeping empty pieces
(the elementary split underlying `split(/\s+/)`). -/
def splitOnPred (p : Char → Bool) : List Char → List (List Char)
  | [] => [[]]
  | c :: rest =>
    let r := splitOnPred p rest
    if p c then [] :: r
    else
      match r with
      | [] => [[c]]
      | h :: t => (c :: h) :: t

def dropInteriorEmptiesTail : List (List Char) → List (List Char)
  | [] => []
  | [x] => [x]
  | x :: rest =>
    if x.isEmpty then dropInteriorEmptiesTail rest
    else x :: dropInteriorEmptiesTail rest

/-- Merge a single-character split into the `/\s+/` split: runs of
separators produce interior empty pieces, which JS's regex split does not
emit; boundary empties survive. -/
def dropInteriorEmpties : List (List Char) → List (List Char)
  | [] => []
  | [x] => [x]
  | x :: rest => x :: dropInteriorEmptiesTail rest

/-- JS `s.split(/\s+/)`. -/
def jsSplitWsRuns (s : List Char) : List (List Char) :=
  dropInteriorEmpties (splitOnPred isJsWs s)

def stopWords : List String :=
  ["and", "the", "that", "this", "with", "for", "from", "have", "will",
   "это", "как", "что", "где", "когда", "который", "для", "или", "есть", "быть"]

def isStopWord (w : String) : Bool := stopWords.contains w

/-- `MemoryEngine.extractKeywords`. -/
def extractKeywords (text : List Char) : List String :=
  let lowered := text.map jsToLower
  let stripped := lowered.filter isKeptByKeywordRegex
  let words := (jsSplitWsRuns stripped).map String.mk
  (words.filter (fun w => w.length > 3)).filter (fun w => !isStopWord w)

/-! ### The engine operations -/

/-- The memory item built by `indexMessageForSearch`. -/
def mkMemoryItem (cid : String) (msg : Message) : MemoryItem :=
  ⟨msg.id, cid, msg.content, msg.timestamp, msg.role, extractKeywords msg.content.data⟩

/-- `MemoryEngine.indexMessageForSearch`: store the memory item under
`memory_<messageId>`, then append the message id to the conversation's
index.  Every failure inside (a throwing write, or an index blob that is
not an array) is caught and swallowed, leaving the effects performed so
far in place. -/
def indexMessageForSearch (f : String → Bool) (st : Store) (cid : String)
    (msg : Message) : Store :=
  if f (memKey msg.id) then st
  else
    let st1 := setK st (memKey msg.id) (StoreVal.item (mkMemoryItem cid msg))
    match getK st1 (memIndexKey cid) with
    | some (StoreVal.ids l) =>
      if f (memIndexKey cid) then st1
      else setK st1 (memIndexKey cid) (StoreVal.ids (l ++ [msg.id]))
    | some _ => st1
    | none =>
      if f (memIndexKey cid) then st1
      else setK st1 (memIndexKey cid) (StoreVal.ids [msg.id])

/-- `MemoryEngine.saveMessage`: append the message to the conversation
log, then index it for search when the trimmed content is longer than 10
UTF-16 units.  A failure before or during the log write is rethrown
(`.error`); the indexing step cannot fail (its errors are swallowed
inside `indexMessageForSearch`).  A log blob that is not a message array
makes the surrounding code throw, modelled as `.error`. -/
def saveMessage (f : String → Bool) (st : Store) (cid : String)
    (msg : Message) : Except Unit Store :=
  let key := convKey cid
  let old : Except Unit (List Message) :=
    match getK st key with
    | some (StoreVal.msgs l) => Except.ok l
    | none => Except.ok []
    | some _ => Except.error ()
  match old with
  | Except.error _ => Except.error ()
  | Except.ok l =>
    if f key then Except.error ()
    else
      let st1 := setK st key (StoreVal.msgs (l ++ [msg]))
      if utf16Len (jsTrim msg.content.data) > 10 then
        Except.ok (indexMessageForSearch f st1 cid msg)
      else
        Except.ok st1

/-- `MemoryEngine.getAllMessages`: the stored log, `[]` when the key is
absent (a non-log blob under the key is defaulted to `[]`, matching the
surrounding `catch`). -/
def getAllMessages (st : Store) (cid : String) : List Message :=
  match getK st (convKey cid) with
  | some (StoreVal.msgs l) => l
  | _ => []

/-- JS `arr.slice(-n)` for a natural `n`: the last `n` elements — except
that `n = 0` yields `slice(0)`, the whole array. -/
def jsSliceLast {α : Type} (l : List α) (n : Nat) : List α :=
  if n = 0 then l else l.drop (l.length - n)

/-- `MemoryEngine.getRecentMessages` (read-only: the state is returned
unchanged, which is exactly what the source does — no write occurs). -/
def getRecentMessages (st : Store) (cid : String) (n : Nat) :
    List Message × Store :=
  (jsSliceLast (getAllMessages st cid) n, st)

/-- `MemoryEngine.clearMemoryForConversation`: read the conversation's
index; when it is an id array, remove each listed memory item and then
the index itself; any failure (including a non-array blob) is caught and
swallowed. -/
def clearMemoryForConversation (st : Store) (cid : String) : Store :=
  match getK st (memIndexKey cid) with
  | some (StoreVal.ids l) =>
    removeK (l.foldl (fun s id => removeK s (memKey id)) st) (memIndexKey cid)
  | some _ => st
  | none => st

/-- `MemoryEngine.clearConversation`: remove the log, then the memory
entries. -/
def clearConversation (st : Store) (cid : String) : Store :=
  clearMemoryForConversation (removeK st (convKey cid)) cid

/-- The ids currently indexed under a conversation (empty when the index
is absent or not an id array). -/
def indexedIds (st : Store) (cid : String) : List String :=
  match getK st (memIndexKey cid) with
  | some (StoreVal.ids l) => l
  | _ => []

/-- The no-failure write oracle (every `setItem` succeeds). -/
def noFail : String → Bool := fun _ => false

/-! ## Persona store (`PersonalityEngine`)

State: the in-memory `Map<string, PersonaProfile>` (insertion-ordered,
modelled as an association list where `set` updates in place and appends
new keys) plus the persisted `mentor_personas` blob.  Each public method
first re-initializes the map when it is empty (built-ins from the fixed
table, then stored customs merged on top).  `savePersona` forces
`isCustom = true`, generates an id `persona_<Date.now()>` when the id is
empty, and upserts by id; generated timestamps are passed in as an
explicit `ts` argument.  `deletePersona` deletes only entries whose
`isCustom` is truthy and otherwise throws (the source collapses
"built-in" and "no such id" into the same rethrown error). -/

structure PersonaProfile where
  id : String
  name : String
  description : String
  icon : String
  communicationStyle : List String
  values : List String
  approach : String
  avoidTopics : List String
  temperature : ℚ
  welcomeMessage : String
  customInstructions : Option String
  isCustom : Option Bool
  deriving DecidableEq

def strategist : PersonaProfile :=
  { id := "strategist", name := "Стратег",
    description := "Аналитический ментор с системным мышлением, специализирующийся на долгосрочном планировании и стратегических решениях.",
    icon := "🧠",
    communicationStyle := ["аналитический", "логичный", "структурированный"],
    values := ["системное мышление", "стратегическое планирование", "методичность"],
    approach := "Разбивает сложные цели на структурированные планы и анализирует их выполнимость.",
    avoidTopics := ["эзотерика", "интуитивные решения без обоснования", "эмоционально-мотивационные речи"],
    temperature := 3/10,
    welcomeMessage := "Приветствую. Я Стратег, и моя задача - помочь вам создать чёткую стратегию достижения ваших целей. Давайте мыслить системно.",
    customInstructions := none, isCustom := some false }

def commander : PersonaProfile :=
  { id := "commander", name := "Командир",
    description := "Дисциплинированный и требовательный ментор с прямым стилем общения, ориентированный на конкретные результаты.",
    icon := "👊",
    communicationStyle := ["директивный", "лаконичный", "требовательный"],
    values := ["дисциплина", "ответственность", "результат"],
    approach := "Даёт чёткие указания и требует регулярной отчетности о прогрессе.",
    avoidTopics := ["отговорки", "самооправдания", "размытые цели"],
    temperature := 4/10,
    welcomeMessage := "Слушай внимательно. Я здесь не для того, чтобы тебя жалеть. Моя задача - сделать из тебя дисциплинированного бойца, который достигает своих целей. Готов работать на результат?",
    customInstructions := none, isCustom := some false }

def architect : PersonaProfile :=
  { id := "architect", name := "Архитектор",
    description := "Методичный и детальный ментор, фокусирующийся на создании устойчивых систем и процессов.",
    icon := "🏗️",
    communicationStyle := ["точный", "подробный", "технический"],
    values := ["системность", "оптимизация", "качество"],
    approach := "Создает детальные планы с проработкой всех компонентов и связей между ними.",
    avoidTopics := ["импульсивные решения", "поверхностные подходы", "быстрые хаки"],
    temperature := 2/10,
    welcomeMessage := "Добро пожаловать. Я Архитектор, и я помогу вам спроектировать надежную систему для достижения ваших целей. Давайте начнем с детального анализа компонентов и зависимостей.",
    customInstructions := none, isCustom := some false }

def catalyst : PersonaProfile :=
  { id := "catalyst", name := "Катализатор",
    description := "Энергичный ментор, фокусирующийся на преодолении барьеров и запуске изменений.",
    icon := "⚡",
    communicationStyle := ["энергичный", "побуждающий", "динамичный"],
    values := ["действие", "прорыв", "момент"],
    approach := "Мотивирует к быстрому началу действий и преодолению внутренних барьеров.",
    avoidTopics := ["чрезмерное планирование", "перфекционизм", "самокопание"],
    temperature := 6/10,
    welcomeMessage := "Привет! Я Катализатор, и моя задача — зажечь в тебе огонь действия. Хватит планировать и сомневаться — пора двигаться вперед и разрушать барьеры. Готов ли ты к прорыву?",
    customInstructions := none, isCustom := some false }

def tactical : PersonaProfile :=
  { id := "tactical", name := "Тактик",
    description := "Практичный ментор, специализирующийся на краткосрочном планировании и оптимизации процессов.",
    icon := "🎯",
    communicationStyle := ["конкретный", "практичный", "ориентированный на действия"],
    values := ["эффективность", "оптимизация", "практичность"],
    approach := "Фокусируется на ближайших шагах и практических решениях.",
    avoidTopics := ["абстрактные теории", "далекие перспективы", "философские размышления"],
    temperature := 4/10,
    welcomeMessage := "Приветствую. Я Тактик, и мы будем работать с конкретными, измеримыми действиями. Никакой воды — только практика. Чего вы хотите достичь в ближайшее время?",
    customInstructions := none, isCustom := some false }

/-- The built-in table, in the insertion order of `loadBuiltInPersonas`. -/
def builtinPersonas : List PersonaProfile :=
  [strategist, commander, architect, catalyst, tactical]

def builtinIds : List String :=
  ["strategist", "commander", "architect", "catalyst", "tactical"]

/-- JS truthiness of the optional `isCustom` flag. -/
def isCustomTruthy (p : PersonaProfile) : Bool := p.isCustom == some true

structure PersonaState where
  personas : List (String × PersonaProfile)
  storage : Option (List PersonaProfile)

/-- `initPersonas`: built-ins first, stored customs merged on top
(custom definitions win on id collision). -/
def initMap (storage : Option (List PersonaProfile)) :
    List (String × PersonaProfile) :=
  let m0 := builtinPersonas.foldl (fun m p => alSet m p.id p) []
  match storage with
  | some l => l.foldl (fun m p => alSet m p.id p) m0
  | none => m0

/-- The `if (this.personas.size === 0) await this.initPersonas()` guard
at the head of every public method. -/
def ensureLoaded (st : PersonaState) : PersonaState :=
  if st.personas.isEmpty then { st with personas := initMap st.storage } else st

/-- The freshly constructed engine (constructor runs `initPersonas` with
nothing persisted yet). -/
def initialPersonaState : PersonaState :=
  { personas := initMap none, storage := none }

/-- `saveCustomPersonas`: persist exactly the custom profiles. -/
def persistCustoms (m : List (String × PersonaProfile)) :
    Option (List PersonaProfile) :=
  some ((m.map (·.2)).filter isCustomTruthy)

/-- `PersonalityEngine.getAllPersonas`. -/
def getAllPersonas (st : PersonaState) : List PersonaProfile × PersonaState :=
  let st' := ensureLoaded st
  (st'.personas.map (·.2), st')

/-- `PersonalityEngine.getPersona`: the requested profile, else the
`commander` default, else the first stored value (`none` models the
`undefined` that JS would return from an empty map). -/
def getPersona (st : PersonaState) (personaId : String) :
    Option PersonaProfile × PersonaState :=
  let st' := ensureLoaded st
  let r :=
    match alGet st'.personas personaId with
    | some p => some p
    | none =>
      match alGet st'.personas "commander" with
      | some p => some p
      | none => (st'.personas.map (·.2)).head?
  (r, st')

/-- `PersonalityEngine.savePersona`: force `isCustom`, generate
`persona_<ts>` when the id is empty, upsert, persist customs. -/
def savePersona (ts : String) (st : PersonaState) (p : PersonaProfile) :
    PersonaState :=
  let st' := ensureLoaded st
  let p1 := { p with isCustom := some true }
  let p2 := if p1.id == "" then { p1 with id := "persona_" ++ ts } else p1
  let m := alSet st'.personas p2.id p2
  { personas := m, storage := persistCustoms m }

inductive PersonaError where
  | protectedResource : PersonaError
  deriving DecidableEq

/-- `PersonalityEngine.deletePersona`: only an entry with truthy
`isCustom` is deleted; a built-in entry — and likewise a missing id —
makes the method throw (`ProtectedResourceError` in the specification's
taxonomy), leaving the state as it stood after the load guard. -/
def deletePersona (st : PersonaState) (personaId : String) :
    Except PersonaError Unit × PersonaState :=
  let st' := ensureLoaded st
  match alGet st'.personas personaId with
  | some p =>
    if isCustomTruthy p then
      let m := alDel st'.personas personaId
      (Except.ok (), { personas := m, storage := persistCustoms m })
    else (Except.error PersonaError.protectedResource, st')
  | none => (Except.error PersonaError.protectedResource, st')

/-- `PersonalityEngine.duplicatePersona`: copy the base profile under a
generated `persona_<ts>` id, marked custom, and save it. -/
def duplicatePersona (ts : String) (st : PersonaState)
    (basePersonaId newName : String) :
    Except Unit PersonaProfile × PersonaState :=
  let (base, st1) := getPersona (ensureLoaded st) basePersonaId
  match base with
  | none => (Except.error (), st1)
  | some b =>
    let nm := if newName == "" then b.name ++ " (копия)" else newName
    let np := { b with id := "persona_" ++ ts, name := nm, isCustom := some true }
    (Except.ok np, savePersona ts st1 np)

/-- One persona-store call, for reasoning about interleavings; a failing
call leaves the caller with the state the engine held when it threw. -/
inductive PersonaOp where
  | save : String → PersonaProfile → PersonaOp
  | delete : String → PersonaOp
  | duplicate : String → String → String → PersonaOp

def runPersonaOp (st : PersonaState) : PersonaOp → PersonaState
  | PersonaOp.save ts p => savePersona ts st p
  | PersonaOp.delete pid => (deletePersona st pid).2
  | PersonaOp.duplicate ts b n => (duplicatePersona ts st b n).2

def runPersonaOps (st : PersonaState) (ops : List PersonaOp) : PersonaState :=
  ops.foldl runPersonaOp st

/-- The id under which `savePersona` stores its argument. -/
def savedId (ts : String) (p : PersonaProfile) : String :=
  if p.id == "" then "persona_" ++ ts else p.id

/-- An operation that never writes a built-in id: any delete or
duplicate, and a save whose stored id is not built-in. -/
def OpAvoidsBuiltinIds : PersonaOp → Prop
  | PersonaOp.save ts p => savedId ts p ∉ builtinIds
  | PersonaOp.delete _ => True
  | PersonaOp.duplicate _ _ _ => True

/-! ## Remote completion client (`AICoreService.callOpenAI`) -/

structure ChatRequest where
  model : String
  messages : List (String × String)
  temperature : ℚ
  maxTokens : ℕ
  deriving DecidableEq

/-- JS `v || d` for an optionally-absent number: `0` (and `NaN`, which ℚ
does not have) is falsy and falls back to `d`, as does `undefined`. -/
def jsNumOr (v : Option ℚ) (d : ℚ) : ℚ :=
  match v with
  | some x => if x = 0 then d else x
  | none => d

/-- The request body `callOpenAI` posts: fixed model, the composed
messages, `currentPersona?.temperature || 0.7`, fixed token cap. -/
def callOpenAIRequest (currentPersona : Option PersonaProfile)
    (messages : List (String × String)) : ChatRequest :=
  { model := "gpt-4-turbo",
    messages := messages,
    temperature := jsNumOr (currentPersona.map (·.temperature)) (7/10),
    maxTokens := 1000 }

/-! ## Concrete states and inputs used by the claim theorems -/

def c4Msg : Message := ⟨"m0", MessageRole.user, "hello there everyone", "t0", none⟩

def c4State : Store := [(convKey "c", StoreVal.msgs [c4Msg])]

def zeroTempPersona : PersonaProfile := { strategist with id := "frosty", temperature := 0 }

def ConvOk (st : Store) (cid : String) : Prop :=
  getK st (convKey cid) = none ∨ ∃ l, getK st (convKey cid) = some (StoreVal.msgs l)

def IdxOk (st : Store) (cid : String) : Prop :=
  getK st (memIndexKey cid) = none ∨ ∃ l, getK st (memIndexKey cid) = some (StoreVal.ids l)

def c3SysMsg : Message :=
  ⟨"m1", MessageRole.system, "Hello world, how are you doing?", "t0", none⟩

def c3After : Store :=
  match saveMessage noFail [] "c" c3SysMsg with
  | Except.ok st => st
  | Except.error _ => []

def c3UserMsg : Message :=
  ⟨"m2", MessageRole.user, "Tomorrow we train at dawn", "t1", none⟩

def c2OverwrittenState : PersonaState := savePersona "t1" initialPersonaState commander

def c2CustomPersona : PersonaProfile :=
  { strategist with id := "mycoach", isCustom := some true }

def c5Item : MemoryItem := mkMemoryItem "c" c4Msg

def c5State : Store :=
  [(convKey "c", StoreVal.msgs [c4Msg]),
   (memKey "m0", StoreVal.item c5Item),
   (memIndexKey "c", StoreVal.ids ["m0"])]

def c9Oracle : String → Bool := fun k => k == memKey "m2"

def c1Input : String :=
  "Here is a plan. <system>create_task: \x7b\"title\": \"Write report\", \"priority\": \"urgent\"\x7d</system> Good luck!"

def spliceInput : String :=
  "<system<system>a: \x7b\x7d</system>>b: \x7b\x7d</system>"

/-! ## Basic lemmas -/

theorem string_data_append (s t : String) : (s ++ t).data = s.data ++ t.data := by
  cases s; cases t; rfl

theorem string_ext {s t : String} (h : s.data = t.data) : s = t := by
  cases s; cases t; exact congrArg String.mk h

theorem alGet_nil {α : Type} (k : String) : alGet ([] : List (String × α)) k = none := rfl

theorem alGet_cons {α : Type} (k' : String) (v' : α) (rest : List (String × α)) (k : String) :
    alGet ((k', v') :: rest) k = if k' == k then some v' else alGet rest k := by
  by_cases h : (k' == k) <;> simp [alGet, List.find?_cons, h]

theorem alGet_alSet_self {α : Type} (m : List (String × α)) (k : String) (v : α) :
    alGet (alSet m k v) k = some v := by
  induction m with
  | nil => simp [alSet, alGet_cons]
  | cons e rest ih =>
    obtain ⟨k', v'⟩ := e
    by_cases h : (k' == k) <;> simp [alSet, h, alGet_cons, ih]

theorem alGet_alSet_other {α : Type} (m : List (String × α)) (k k' : String) (v : α)
    (h : k' ≠ k) : alGet (alSet m k v) k' = alGet m k' := by
  induction m with
  | nil =>
    have : (k == k') = false := by simp [beq_iff_eq]; exact fun he => h he.symm
    simp [alSet, alGet_cons, this]
  | cons e rest ih =>
    obtain ⟨k0, v0⟩ := e
    by_cases h0 : (k0 == k)
    · have hk : k0 = k := by simpa [beq_iff_eq] using h0
      subst hk
      have : (k0 == k') = false := by simp [beq_iff_eq]; exact fun he => h he.symm
      simp [alSet, h0, alGet_cons, this]
    · simp [alSet, h0, alGet_cons, ih]

theorem alDel_cons {α : Type} (k0 : String) (v0 : α) (rest : List (String × α)) (k : String) :
    alDel ((k0, v0) :: rest) k =
      if k0 == k then alDel rest k else (k0, v0) :: alDel rest k := by
  by_cases h0 : (k0 == k) <;> simp [alDel, List.filter_cons, h0]

theorem alGet_alDel_self {α : Type} (m : List (String × α)) (k : String) :
    alGet (alDel m k) k = none := by
  induction m with
  | nil => rfl
  | cons e rest ih =>
    obtain ⟨k0, v0⟩ := e
    by_cases h0 : (k0 == k) <;> simp [alDel_cons, h0, alGet_cons, ih]

theorem alGet_alDel_other {α : Type} (m : List (String × α)) (k k' : String)
    (h : k' ≠ k) : alGet (alDel m k) k' = alGet m k' := by
  induction m with
  | nil => rfl
  | cons e rest ih =>
    obtain ⟨k0, v0⟩ := e
    by_cases h0 : (k0 == k)
    · have hk : k0 = k := by simpa [beq_iff_eq] using h0
      subst hk
      have hne : (k0 == k') = false := by simp [beq_iff_eq]; exact fun he => h he.symm
      simp [alDel_cons, h0, alGet_cons, hne, ih]
    · simp [alDel_cons, h0, alGet_cons, ih]

theorem alGet_alDel_none {α : Type} (m : List (String × α)) (k k' : String)
    (h : alGet m k' = none) : alGet (alDel m k) k' = none := by
  by_cases he : k' = k
  · subst he; exact alGet_alDel_self m k'
  · rw [alGet_alDel_other m k k' he]; exact h

theorem convKey_ne_memKey (a b : String) : convKey a ≠ memKey b := by
  intro h
  have h1 : (convKey a).data.head? = some 'c' := by
    rw [convKey, string_data_append]; rfl
  have h2 : (memKey b).data.head? = some 'm' := by
    rw [memKey, string_data_append]; rfl
  rw [h, h2] at h1
  simp at h1

theorem convKey_ne_memIndexKey (a b : String) : convKey a ≠ memIndexKey b := by
  intro h
  have h1 : (convKey a).data.head? = some 'c' := by
    rw [convKey, string_data_append]; rfl
  have h2 : (memIndexKey b).data.head? = some 'm' := by
    rw [memIndexKey, string_data_append]; rfl
  rw [h, h2] at h1
  simp at h1

theorem memKey_eq_memIndexKey {a b : String} (h : memKey a = memIndexKey b) :
    a = "index_" ++ b := by
  have h0 : memIndexKey b = memKey ("index_" ++ b) := by
    apply string_ext
    rw [memIndexKey, memKey, string_data_append, string_data_append, string_data_append]
    rfl
  rw [h0] at h
  have hd := congrArg String.data h
  rw [memKey, memKey, string_data_append, string_data_append] at hd
  exact string_ext (List.append_cancel_left hd)

/-- C4 counterexample: at limit 0, `slice(-0)` is `slice(0)` and the
whole log is returned, not the last `min(0, |C|) = 0` messages. -/
theorem c4_counterexample :
    ¬ ((getRecentMessages c4State "c" 0).1.length =
        min 0 (getAllMessages c4State "c").length) := by decide

/-- C4 amended: for every limit N ≥ 1, `getRecentMessages` returns
exactly the last `min(N, |C|)` messages in chronological order, leaves
the store untouched, and repeated calls return the same sequence. -/
theorem c4_amended : ∀ (st : Store) (cid : String) (n : Nat), 1 ≤ n →
    (∃ p, getAllMessages st cid = p ++ (getRecentMessages st cid n).1) ∧
    (getRecentMessages st cid n).1.length = min n (getAllMessages st cid).length ∧
    (getRecentMessages st cid n).2 = st ∧
    (getRecentMessages ((getRecentMessages st cid n).2) cid n).1 =
      (getRecentMessages st cid n).1 := by
  intro st cid n hn
  have h0 : n ≠ 0 := by omega
  refine ⟨⟨(getAllMessages st cid).take ((getAllMessages st cid).length - n), ?_⟩, ?_, rfl, rfl⟩
  · simp only [getRecentMessages, jsSliceLast, h0, if_false]
    exact (List.take_append_drop _ _).symm
  · simp only [getRecentMessages, jsSliceLast, h0, if_false, List.length_drop]
    omega

/-- C4 witness: the amended theorem applied at a concrete store. -/
theorem c4_amended_witness :
    1 ≤ 2 ∧
    ((∃ p, getAllMessages c4State "c" = p ++ (getRecentMessages c4State "c" 2).1) ∧
      (getRecentMessages c4State "c" 2).1.length =
        min 2 (getAllMessages c4State "c").length ∧
      (getRecentMessages c4State "c" 2).2 = c4State ∧
      (getRecentMessages ((getRecentMessages c4State "c" 2).2) "c" 2).1 =
        (getRecentMessages c4State "c" 2).1) :=
  ⟨by decide, c4_amended c4State "c" 2 (by decide)⟩

/-- C8 counterexample: a persona that supplies temperature 0 is sent the
default 0.7 — `persona?.temperature || 0.7` treats 0 as absent. -/
theorem c8_counterexample :
    ¬ ((callOpenAIRequest (some zeroTempPersona) []).temperature =
        zeroTempPersona.temperature) := by
  simp [callOpenAIRequest, jsNumOr, zeroTempPersona, strategist]

/-- C8 amended: the outgoing temperature equals the persona's whenever a
persona is loaded and its temperature is nonzero, and equals 0.7 when no
persona is loaded or its temperature is 0. -/
theorem c8_amended : ∀ (p : PersonaProfile) (msgs : List (String × String)),
    (p.temperature ≠ 0 →
      (callOpenAIRequest (some p) msgs).temperature = p.temperature) ∧
    (p.temperature = 0 →
      (callOpenAIRequest (some p) msgs).temperature = 7/10) ∧
    (callOpenAIRequest none msgs).temperature = 7/10 := by
  intro p msgs
  refine ⟨fun h => ?_, fun h => ?_, rfl⟩ <;> simp [callOpenAIRequest, jsNumOr, h]

/-- C8 witness: the amended theorem applied at a built-in persona. -/
theorem c8_amended_witness :
    strategist.temperature ≠ 0 ∧
    (callOpenAIRequest (some strategist) []).temperature = strategist.temperature :=
  ⟨by norm_num [strategist], (c8_amended strategist []).1 (by norm_num [strategist])⟩

/-! ### Memory-engine lemmas -/

theorem jsSliceLast_nil {α : Type} (n : Nat) : jsSliceLast ([] : List α) n = [] := by
  unfold jsSliceLast; split <;> simp

theorem foldl_alDel_none (l : List String) (st : Store) (k : String)
    (h : alGet st k = none) :
    alGet (l.foldl (fun s i => removeK s (memKey i)) st) k = none := by
  induction l generalizing st with
  | nil => exact h
  | cons i l' ih =>
    exact ih (removeK st (memKey i)) (alGet_alDel_none st (memKey i) k h)

theorem foldl_alDel_mem (l : List String) (st : Store) (id : String)
    (h : id ∈ l) :
    alGet (l.foldl (fun s i => removeK s (memKey i)) st) (memKey id) = none := by
  induction l generalizing st with
  | nil => cases h
  | cons i l' ih =>
    rcases List.mem_cons.mp h with he | hm
    · subst he
      exact foldl_alDel_none l' (removeK st (memKey id)) (memKey id)
        (alGet_alDel_self st (memKey id))
    · exact ih (removeK st (memKey i)) hm

theorem indexMessage_preserves_conv (f : String → Bool) (st : Store)
    (cid : String) (msg : Message) :
    getK (indexMessageForSearch f st cid msg) (convKey cid) =
      getK st (convKey cid) := by
  unfold indexMessageForSearch
  by_cases h1 : f (memKey msg.id)
  · simp [h1]
  · have hcm : convKey cid ≠ memKey msg.id := convKey_ne_memKey cid msg.id
    have hci : convKey cid ≠ memIndexKey cid := convKey_ne_memIndexKey cid cid
    simp only [h1, if_false, Bool.false_eq_true]
    rcases h2 : getK (setK st (memKey msg.id) (StoreVal.item (mkMemoryItem cid msg)))
        (memIndexKey cid) with _ | v
    · by_cases h3 : f (memIndexKey cid) <;>
        simp [h3, getK, setK, alGet_alSet_other _ _ _ _ hci,
          alGet_alSet_other _ _ _ _ hcm]
    · cases v <;>
        by_cases h3 : f (memIndexKey cid) <;>
        simp [h3, h2, getK, setK, alGet_alSet_other _ _ _ _ hci,
          alGet_alSet_other _ _ _ _ hcm]

/-- C5: after `clearConversation`, the conversation log is gone, every
MemoryItem listed in the conversation index is removed from storage, and
`getRecentMessages` returns the empty sequence for every limit. -/
theorem c5_clear : ∀ (st : Store) (cid : String),
    getAllMessages (clearConversation st cid) cid = [] ∧
    (∀ n, (getRecentMessages (clearConversation st cid) cid n).1 = []) ∧
    (∀ id ∈ indexedIds st cid, getK (clearConversation st cid) (memKey id) = none) ∧
    getK (clearConversation st cid) (convKey cid) = none := by
  intro st cid
  have hci : convKey cid ≠ memIndexKey cid := convKey_ne_memIndexKey cid cid
  have hidx : getK (removeK st (convKey cid)) (memIndexKey cid) =
      getK st (memIndexKey cid) :=
    alGet_alDel_other st (convKey cid) (memIndexKey cid) (Ne.symm hci)
  have hconv1 : getK (removeK st (convKey cid)) (convKey cid) = none :=
    alGet_alDel_self st (convKey cid)
  have hmain : getK (clearConversation st cid) (convKey cid) = none ∧
      (∀ id ∈ indexedIds st cid, getK (clearConversation st cid) (memKey id) = none) := by
    unfold clearConversation clearMemoryForConversation
    rw [show (getK (removeK st (convKey cid)) (memIndexKey cid)) =
        getK st (memIndexKey cid) from hidx]
    rcases hv : getK st (memIndexKey cid) with _ | v
    · exact ⟨hconv1, fun id hid => by simp [indexedIds, hv] at hid⟩
    · cases v with
      | msgs l => exact ⟨hconv1, fun id hid => by simp [indexedIds, hv] at hid⟩
      | item it => exact ⟨hconv1, fun id hid => by simp [indexedIds, hv] at hid⟩
      | ids l =>
        constructor
        · exact alGet_alDel_none _ (memIndexKey cid) (convKey cid)
            (foldl_alDel_none l (removeK st (convKey cid)) (convKey cid) hconv1)
        · intro id hid
          have hmem : id ∈ l := by simpa [indexedIds, hv] using hid
          exact alGet_alDel_none _ (memIndexKey cid) (memKey id)
            (foldl_alDel_mem l (removeK st (convKey cid)) id hmem)
  refine ⟨?_, ?_, hmain.2, hmain.1⟩
  · simp [getAllMessages, hmain.1]
  · intro n
    have h : getAllMessages (clearConversation st cid) cid = [] := by
      simp [getAllMessages, hmain.1]
    simp [getRecentMessages, h, jsSliceLast_nil]

theorem indexMessage_noFail (st1 : Store) (cid : String) (msg : Message)
    (hmi : memKey msg.id ≠ memIndexKey cid) (l0 : List String)
    (hidx : (getK st1 (memIndexKey cid) = none ∧ l0 = []) ∨
      getK st1 (memIndexKey cid) = some (StoreVal.ids l0)) :
    indexMessageForSearch noFail st1 cid msg =
      setK (setK st1 (memKey msg.id) (StoreVal.item (mkMemoryItem cid msg)))
        (memIndexKey cid) (StoreVal.ids (l0 ++ [msg.id])) := by
  have h2 : getK (setK st1 (memKey msg.id) (StoreVal.item (mkMemoryItem cid msg)))
      (memIndexKey cid) = getK st1 (memIndexKey cid) :=
    alGet_alSet_other st1 (memKey msg.id) (memIndexKey cid) _ (Ne.symm hmi)
  unfold indexMessageForSearch
  rcases hidx with ⟨h, rfl⟩ | h <;>
    simp only [noFail, Bool.false_eq_true, if_false, reduceIte, getK, setK] at h2 h ⊢ <;>
    rw [h2, h] <;>
    simp [getK, setK]

/-- C3 amended: appending a message creates no MemoryItem when the
trimmed content has at most 10 UTF-16 units, and exactly one MemoryItem
(stored under `memory_<id>` and appended to the conversation index)
otherwise — regardless of role; system messages are filtered only at
retrieval time. Stated as exact equations on the post-state, for any
well-shaped store and any message id that does not collide with the
index key. -/
theorem c3_amended : ∀ (st : Store) (cid : String) (msg : Message),
    ConvOk st cid → IdxOk st cid → msg.id ≠ "index_" ++ cid →
    (utf16Len (jsTrim msg.content.data) ≤ 10 →
      saveMessage noFail st cid msg =
        Except.ok (setK st (convKey cid)
          (StoreVal.msgs (getAllMessages st cid ++ [msg])))) ∧
    (utf16Len (jsTrim msg.content.data) > 10 →
      saveMessage noFail st cid msg =
        Except.ok (setK (setK (setK st (convKey cid)
            (StoreVal.msgs (getAllMessages st cid ++ [msg])))
          (memKey msg.id) (StoreVal.item (mkMemoryItem cid msg)))
          (memIndexKey cid) (StoreVal.ids (indexedIds st cid ++ [msg.id])))) := by
  intro st cid msg hconv hidx hid
  have hmi : memKey msg.id ≠ memIndexKey cid := fun he => hid (memKey_eq_memIndexKey he)
  have hidx1 : (getK (setK st (convKey cid)
        (StoreVal.msgs (getAllMessages st cid ++ [msg]))) (memIndexKey cid) = none ∧
        indexedIds st cid = []) ∨
      getK (setK st (convKey cid)
        (StoreVal.msgs (getAllMessages st cid ++ [msg]))) (memIndexKey cid) =
        some (StoreVal.ids (indexedIds st cid)) := by
    have hsame : getK (setK st (convKey cid)
        (StoreVal.msgs (getAllMessages st cid ++ [msg]))) (memIndexKey cid) =
        getK st (memIndexKey cid) :=
      alGet_alSet_other st (convKey cid) (memIndexKey cid) _
        (Ne.symm (convKey_ne_memIndexKey cid cid))
    rcases hidx with h | ⟨l, h⟩
    · exact Or.inl ⟨by rw [hsame, h], by simp [indexedIds, h]⟩
    · exact Or.inr (by rw [hsame, h]; simp [indexedIds, h])
  constructor
  · intro hle
    have hgt : ¬ (10 < utf16Len (jsTrim msg.content.data)) := by omega
    rcases hconv with h | ⟨l, h⟩ <;>
      simp [saveMessage, h, noFail, hgt, getAllMessages]
  · intro hgt
    have heq := indexMessage_noFail
      (setK st (convKey cid) (StoreVal.msgs (getAllMessages st cid ++ [msg])))
      cid msg hmi (indexedIds st cid) hidx1
    rcases hconv with h | ⟨l, h⟩
    · have hall : getAllMessages st cid = [] := by simp [getAllMessages, h]
      simp only [saveMessage, h, noFail, Bool.false_eq_true, if_false, reduceIte]
      rw [if_pos hgt]
      rw [hall] at heq ⊢
      simp only [List.nil_append] at heq ⊢
      rw [heq]
    · have hall : getAllMessages st cid = l := by simp [getAllMessages, h]
      simp only [saveMessage, h, noFail, Bool.false_eq_true, if_false, reduceIte]
      rw [if_pos hgt]
      rw [hall] at heq ⊢
      rw [heq]

/-- C3 counterexample: a system-role message whose trimmed content is
longer than 10 units DOES get a MemoryItem — `saveMessage` never checks
the role, contradicting the claim. -/
theorem c3_counterexample :
    c3SysMsg.role = MessageRole.system ∧
    (getK c3After (memKey "m1")).isSome = true := ⟨rfl, rfl⟩

/-- C3 witness: the amended theorem applied at a concrete message. -/
theorem c3_amended_witness :
    (ConvOk [] "c" ∧ IdxOk [] "c" ∧ c3UserMsg.id ≠ "index_" ++ "c" ∧
      utf16Len (jsTrim c3UserMsg.content.data) > 10) ∧
    saveMessage noFail [] "c" c3UserMsg =
      Except.ok (setK (setK (setK [] (convKey "c")
          (StoreVal.msgs (getAllMessages [] "c" ++ [c3UserMsg])))
        (memKey c3UserMsg.id) (StoreVal.item (mkMemoryItem "c" c3UserMsg)))
        (memIndexKey "c") (StoreVal.ids (indexedIds [] "c" ++ [c3UserMsg.id]))) :=
  ⟨⟨Or.inl rfl, Or.inl rfl, by decide, by decide⟩,
    (c3_amended [] "c" c3UserMsg (Or.inl rfl) (Or.inl rfl) (by decide)).2 (by decide)⟩

theorem indexMessage_itemFail (f : String → Bool) (st : Store) (cid : String)
    (msg : Message) (hfm : f (memKey msg.id) = true) :
    indexMessageForSearch f st cid msg = st := by
  unfold indexMessageForSearch
  simp [hfm]

/-- C9: appending succeeds whenever the write of the conversation log
succeeds — for every write-failure oracle, `saveMessage` returns ok with
the message appended to the log, and when the memory-item write fails
the failure is swallowed, leaving item and index untouched while the
message is in the log. -/
theorem c9_index_failure_swallowed :
    ∀ (f : String → Bool) (st : Store) (cid : String) (msg : Message),
    f (convKey cid) = false → ConvOk st cid →
    ∃ st', saveMessage f st cid msg = Except.ok st' ∧
      getAllMessages st' cid = getAllMessages st cid ++ [msg] ∧
      (f (memKey msg.id) = true →
        getK st' (memKey msg.id) = getK st (memKey msg.id) ∧
        getK st' (memIndexKey cid) = getK st (memIndexKey cid)) := by
  intro f st cid msg hf hconv
  have hcm : convKey cid ≠ memKey msg.id := convKey_ne_memKey cid msg.id
  have hci : convKey cid ≠ memIndexKey cid := convKey_ne_memIndexKey cid cid
  obtain ⟨l, hl, hall⟩ : ∃ l,
      (getK st (convKey cid) = some (StoreVal.msgs l) ∨
        (getK st (convKey cid) = none ∧ l = [])) ∧ getAllMessages st cid = l := by
    rcases hconv with h | ⟨l, h⟩
    · exact ⟨[], Or.inr ⟨h, rfl⟩, by simp [getAllMessages, h]⟩
    · exact ⟨l, Or.inl h, by simp [getAllMessages, h]⟩
  have hsave : saveMessage f st cid msg = Except.ok
      (if utf16Len (jsTrim msg.content.data) > 10 then
        indexMessageForSearch f
          (setK st (convKey cid) (StoreVal.msgs (l ++ [msg]))) cid msg
      else setK st (convKey cid) (StoreVal.msgs (l ++ [msg]))) := by
    rcases hl with h | ⟨h, rfl⟩ <;>
      simp only [saveMessage, h, hf, Bool.false_eq_true, if_false, reduceIte] <;>
      by_cases hgt : utf16Len (jsTrim msg.content.data) > 10 <;>
      simp [hgt]
  refine ⟨_, hsave, ?_, ?_⟩
  · rw [hall]
    by_cases hgt : utf16Len (jsTrim msg.content.data) > 10 <;>
      simp only [hgt, if_true, if_false, reduceIte]
    · simp only [getAllMessages]
      rw [show getK (indexMessageForSearch f
          (setK st (convKey cid) (StoreVal.msgs (l ++ [msg]))) cid msg) (convKey cid) =
          getK (setK st (convKey cid) (StoreVal.msgs (l ++ [msg]))) (convKey cid) from
        indexMessage_preserves_conv f _ cid msg]
      simp [getK, setK, alGet_alSet_self]
    · simp [getAllMessages, getK, setK, alGet_alSet_self]
  · intro hfm
    have hmm : memKey msg.id ≠ convKey cid := Ne.symm hcm
    have hii : memIndexKey cid ≠ convKey cid := Ne.symm hci
    by_cases hgt : utf16Len (jsTrim msg.content.data) > 10 <;>
      simp only [hgt, if_true, if_false, reduceIte]
    · rw [indexMessage_itemFail f _ cid msg hfm]
      exact ⟨alGet_alSet_other st (convKey cid) (memKey msg.id) _ hmm,
        alGet_alSet_other st (convKey cid) (memIndexKey cid) _ hii⟩
    · exact ⟨alGet_alSet_other st (convKey cid) (memKey msg.id) _ hmm,
        alGet_alSet_other st (convKey cid) (memIndexKey cid) _ hii⟩

/-! ### Persona-store lemmas -/

theorem alGet_ne_nil {α : Type} {m : List (String × α)} {k : String} {v : α}
    (h : alGet m k = some v) : m ≠ [] := by
  intro he; subst he; simp [alGet] at h

theorem alGet_alSet_isSome {α : Type} (m : List (String × α)) (k k' : String) (v : α)
    (h : (alGet m k).isSome = true) : (alGet (alSet m k' v) k).isSome = true := by
  by_cases he : k = k'
  · subst he; simp [alGet_alSet_self]
  · rw [alGet_alSet_other m k' k v he]; exact h

theorem foldl_alSet_isSome (l : List PersonaProfile)
    (m : List (String × PersonaProfile)) (k : String)
    (h : (alGet m k).isSome = true) :
    (alGet (l.foldl (fun m p => alSet m p.id p) m) k).isSome = true := by
  induction l generalizing m with
  | nil => exact h
  | cons p l' ih => exact ih (alSet m p.id p) (alGet_alSet_isSome m k p.id p h)

theorem commander_in_initMap (storage : Option (List PersonaProfile)) :
    (alGet (initMap storage) "commander").isSome = true := by
  unfold initMap
  cases storage with
  | none => decide
  | some l => exact foldl_alSet_isSome l _ "commander" (by decide)

theorem builtin_ids_mem : ∀ q ∈ builtinPersonas, q.id ∈ builtinIds := by decide

theorem builtins_not_custom : ∀ q ∈ builtinPersonas, isCustomTruthy q = false := by decide

theorem persona_ts_head (ts : String) : ("persona_" ++ ts).data.head? = some 'p' := by
  rw [string_data_append]; rfl

theorem persona_ts_not_builtin (ts : String) : ("persona_" ++ ts) ∉ builtinIds := by
  intro h
  have hh := persona_ts_head ts
  simp only [builtinIds, List.mem_cons, List.not_mem_nil, or_false] at h
  rcases h with h | h | h | h | h <;> (rw [h] at hh; revert hh; decide)

theorem persona_ts_ne_empty (ts : String) : ("persona_" ++ ts) ≠ "" := by
  intro h
  have hh := persona_ts_head ts
  rw [h] at hh
  revert hh; decide

theorem ensureLoaded_of_get {st : PersonaState} {k : String} {v : PersonaProfile}
    (h : alGet st.personas k = some v) : ensureLoaded st = st := by
  unfold ensureLoaded
  have : st.personas ≠ [] := alGet_ne_nil h
  simp [List.isEmpty_iff, this]

/-- The stored id of `savePersona` is `savedId`, and the saved record. -/
theorem savePersona_personas (ts : String) (st : PersonaState) (p : PersonaProfile)
    (hne : st.personas ≠ []) :
    (savePersona ts st p).personas =
      alSet st.personas (savedId ts p)
        (if p.id == "" then { p with isCustom := some true, id := "persona_" ++ ts }
         else { p with isCustom := some true }) := by
  unfold savePersona savedId ensureLoaded
  simp only [List.isEmpty_iff, hne, if_false]
  by_cases h0 : (p.id == "") <;> simp [h0]

theorem savedId_of_ne_empty (ts : String) (p : PersonaProfile) (h : p.id ≠ "") :
    savedId ts p = p.id := by
  unfold savedId
  simp [beq_iff_eq, h]

theorem builtin_preserved_save (st : PersonaState) (ts : String) (p : PersonaProfile)
    (hne : st.personas ≠ []) (hsid : savedId ts p ∉ builtinIds)
    (q : PersonaProfile) (hq : alGet st.personas q.id = some q)
    (hqid : q.id ∈ builtinIds) :
    alGet (savePersona ts st p).personas q.id = some q := by
  have hne2 : q.id ≠ savedId ts p := fun he => hsid (he ▸ hqid)
  rw [savePersona_personas ts st p hne, alGet_alSet_other _ _ _ _ hne2]
  exact hq

theorem invB_step (st : PersonaState) (op : PersonaOp)
    (hInv : ∀ p ∈ builtinPersonas, alGet st.personas p.id = some p)
    (hop : OpAvoidsBuiltinIds op) :
    ∀ p ∈ builtinPersonas, alGet (runPersonaOp st op).personas p.id = some p := by
  have hne : st.personas ≠ [] :=
    alGet_ne_nil (hInv strategist (by simp [builtinPersonas]))
  have hld : ensureLoaded st = st := by
    unfold ensureLoaded; simp [List.isEmpty_iff, hne]
  intro q hq
  have hqid : q.id ∈ builtinIds := builtin_ids_mem q hq
  cases op with
  | save ts p =>
    exact builtin_preserved_save st ts p hne hop q (hInv q hq) hqid
  | delete pid =>
    show alGet (deletePersona st pid).2.personas q.id = some q
    unfold deletePersona
    rw [hld]
    rcases hp : alGet st.personas pid with _ | p
    · simp only [hp]
      exact hInv q hq
    · by_cases hc : isCustomTruthy p
      · have hpq : pid ≠ q.id := by
          intro he
          subst he
          rw [hInv q hq] at hp
          cases hp
          rw [builtins_not_custom q hq] at hc
          cases hc
        simp only [hp, hc, if_true]
        rw [alGet_alDel_other _ _ _ (Ne.symm hpq)]
        exact hInv q hq
      · simp only [hp, hc, Bool.false_eq_true, if_false]
        exact hInv q hq
  | duplicate ts b n =>
    show alGet (duplicatePersona ts st b n).2.personas q.id = some q
    unfold duplicatePersona
    rw [hld]
    have hgp : (getPersona st b).2 = st := by
      unfold getPersona; rw [hld]
    rcases hbase : (getPersona st b).1 with _ | bp
    · simp only [hbase, hgp]
      exact hInv q hq
    · simp only [hbase, hgp]
      refine builtin_preserved_save st ts _ hne ?_ q (hInv q hq) hqid
      rw [savedId_of_ne_empty ts _ (persona_ts_ne_empty ts)]
      exact persona_ts_not_builtin ts

theorem mem_alDel {α : Type} {e : String × α} {m : List (String × α)} {k : String}
    (h : e ∈ alDel m k) : e ∈ m ∧ e.1 ≠ k := by
  have := List.mem_filter.mp h
  refine ⟨this.1, ?_⟩
  have hb := this.2
  simp only [Bool.not_eq_true'] at hb
  intro he
  rw [he] at hb
  simp at hb

theorem mem_alDel_of (e : String × PersonaProfile) (m : List (String × PersonaProfile))
    (k : String) (he : e ∈ m) (hne : e.1 ≠ k) : e ∈ alDel m k := by
  refine List.mem_filter.mpr ⟨he, ?_⟩
  simp [beq_iff_eq, hne]

/-- C2 amended: deleting an id whose entry is not custom fails with the
protected-resource error and leaves the engine state as it stood after
the load guard; deleting an id whose entry is custom succeeds and a
subsequent `getAll()` excludes it (given well-keyed entries and at least
one other entry); and every built-in persona stays present under every
interleaving of save, delete and duplicate calls in which no save stores
under a built-in id. -/
theorem c2_amended :
    (∀ (st : PersonaState) (pid : String) (p : PersonaProfile),
      alGet (ensureLoaded st).personas pid = some p → isCustomTruthy p = false →
      deletePersona st pid = (Except.error PersonaError.protectedResource, ensureLoaded st)) ∧
    (∀ (st : PersonaState) (pid : String) (p : PersonaProfile),
      (∀ e ∈ (ensureLoaded st).personas, e.2.id = e.1) →
      (∃ e ∈ (ensureLoaded st).personas, e.1 ≠ pid) →
      alGet (ensureLoaded st).personas pid = some p → isCustomTruthy p = true →
      (deletePersona st pid).1 = Except.ok () ∧
      pid ∉ ((getAllPersonas (deletePersona st pid).2).1.map (·.id))) ∧
    (∀ ops : List PersonaOp, (∀ op ∈ ops, OpAvoidsBuiltinIds op) →
      ∀ p ∈ builtinPersonas,
        alGet (runPersonaOps initialPersonaState ops).personas p.id = some p) := by
  refine ⟨?_, ?_, ?_⟩
  · intro st pid p hp hc
    unfold deletePersona
    simp only [hp, hc, Bool.false_eq_true, if_false]
  · intro st pid p hkeys hother hp hc
    have hdel : (deletePersona st pid).1 = Except.ok () ∧
        (deletePersona st pid).2.personas = alDel (ensureLoaded st).personas pid := by
      unfold deletePersona
      simp [hp, hc]
    refine ⟨hdel.1, ?_⟩
    obtain ⟨e, he, hne⟩ := hother
    have hmem : e ∈ alDel (ensureLoaded st).personas pid :=
      mem_alDel_of e _ pid he hne
    have hnonempty : (deletePersona st pid).2.personas ≠ [] := by
      rw [hdel.2]
      exact List.ne_nil_of_mem hmem
    have hload2 : ensureLoaded (deletePersona st pid).2 = (deletePersona st pid).2 := by
      unfold ensureLoaded
      simp [List.isEmpty_iff, hnonempty]
    intro hin
    simp only [getAllPersonas, hload2, List.map_map, List.mem_map] at hin
    obtain ⟨e', he', hid⟩ := hin
    rw [hdel.2] at he'
    obtain ⟨he'm, he'k⟩ := mem_alDel he'
    exact he'k (by rw [← hkeys e' he'm]; exact hid)
  · intro ops hops
    have hmain : ∀ (ops : List PersonaOp) (st : PersonaState),
        (∀ p ∈ builtinPersonas, alGet st.personas p.id = some p) →
        (∀ op ∈ ops, OpAvoidsBuiltinIds op) →
        ∀ p ∈ builtinPersonas, alGet (runPersonaOps st ops).personas p.id = some p := by
      intro ops
      induction ops with
      | nil => intro st h _; exact h
      | cons op ops' ih =>
        intro st h hall
        exact ih (runPersonaOp st op)
          (invB_step st op h (hall op (by simp)))
          (fun o ho => hall o (by simp [ho]))
    refine hmain ops initialPersonaState ?_ hops
    intro p hp
    simp only [builtinPersonas, List.mem_cons, List.not_mem_nil, or_false] at hp
    rcases hp with rfl | rfl | rfl | rfl | rfl <;> rfl

/-- C2 counterexample: saving a profile under the id `commander` marks it
custom and shadows the built-in, after which `deletePersona` deletes it —
so under this save/delete interleaving a built-in persona id disappears
from the store, refuting the claimed invariant. -/
theorem c2_counterexample :
    (deletePersona c2OverwrittenState "commander").1 = Except.ok () ∧
    "commander" ∉
      ((getAllPersonas (deletePersona c2OverwrittenState "commander").2).1.map (·.id)) :=
  ⟨rfl, by decide⟩

/-- C2 witness: the amended theorem applied at concrete inputs. -/
theorem c2_amended_witness :
    deletePersona initialPersonaState "commander" =
      (Except.error PersonaError.protectedResource, ensureLoaded initialPersonaState) ∧
    alGet (runPersonaOps initialPersonaState
        [PersonaOp.save "t9" c2CustomPersona]).personas commander.id = some commander :=
  ⟨c2_amended.1 initialPersonaState "commander" commander rfl rfl,
   c2_amended.2.2 [PersonaOp.save "t9" c2CustomPersona]
     (fun op hop => by
        simp only [List.mem_singleton] at hop
        subst hop
        exact (by decide : savedId "t9" c2CustomPersona ∉ builtinIds))
     commander (List.mem_cons_of_mem _ (List.mem_cons_self _ _))⟩

/-- C7: `getPersona` always returns a profile — the requested id when
present, else the `commander` default, else the first stored value; the
empty-map case re-initializes with the built-ins, so the result is never
absent. -/
theorem c7_get_total : ∀ (st : PersonaState) (pid : String),
    ((getPersona st pid).1.isSome = true) ∧
    (∀ p, alGet (ensureLoaded st).personas pid = some p →
      (getPersona st pid).1 = some p) ∧
    (alGet (ensureLoaded st).personas pid = none →
      ∀ q, alGet (ensureLoaded st).personas "commander" = some q →
        (getPersona st pid).1 = some q) ∧
    (alGet (ensureLoaded st).personas pid = none →
      alGet (ensureLoaded st).personas "commander" = none →
      (getPersona st pid).1 = ((ensureLoaded st).personas.map (·.2)).head?) := by
  intro st pid
  refine ⟨?_, ?_, ?_, ?_⟩
  · rcases hp : alGet (ensureLoaded st).personas pid with _ | p
    · rcases hc : alGet (ensureLoaded st).personas "commander" with _ | q
      · by_cases hE : st.personas.isEmpty
        · exfalso
          have hinit : (ensureLoaded st).personas = initMap st.storage := by
            unfold ensureLoaded
            simp [hE]
          rw [hinit] at hc
          have := commander_in_initMap st.storage
          rw [hc] at this
          cases this
        · have hne : st.personas ≠ [] := by
            simpa [List.isEmpty_iff] using hE
          have hld : ensureLoaded st = st := by
            unfold ensureLoaded; simp [List.isEmpty_iff, hne]
          simp only [getPersona, hp, hc]
          rw [hld]
          rcases hl : st.personas with _ | ⟨e, rest⟩
          · exact absurd hl hne
          · simp
      · simp [getPersona, hp, hc]
    · simp [getPersona, hp]
  · intro p hp
    simp [getPersona, hp]
  · intro hnone q hq
    simp [getPersona, hnone, hq]
  · intro h1 h2
    simp [getPersona, h1, h2]

/-- C7 witness: an unknown id on a fresh engine falls back to the
`commander` built-in. -/
theorem c7_witness :
    (getPersona { personas := [], storage := none } "nope").1 = some commander :=
  (c7_get_total { personas := [], storage := none } "nope").2.2.1 rfl commander rfl

/-- C5 witness: the theorem applied at a concrete populated store. -/
theorem c5_witness :
    getAllMessages (clearConversation c5State "c") "c" = [] ∧
    (getRecentMessages (clearConversation c5State "c") "c" 5).1 = [] ∧
    getK (clearConversation c5State "c") (memKey "m0") = none :=
  ⟨(c5_clear c5State "c").1, (c5_clear c5State "c").2.1 5,
   (c5_clear c5State "c").2.2.1 "m0" (by decide)⟩

/-- C9 witness: the theorem applied with an oracle that fails exactly
the memory-item write. -/
theorem c9_witness :
    c9Oracle (convKey "c") = false ∧
    (∃ st', saveMessage c9Oracle [] "c" c3UserMsg = Except.ok st' ∧
      getAllMessages st' "c" = getAllMessages [] "c" ++ [c3UserMsg] ∧
      (c9Oracle (memKey c3UserMsg.id) = true →
        getK st' (memKey c3UserMsg.id) = getK [] (memKey c3UserMsg.id) ∧
        getK st' (memIndexKey "c") = getK [] (memIndexKey "c"))) :=
  ⟨by decide,
   c9_index_failure_swallowed c9Oracle [] "c" c3UserMsg (by decide) (Or.inl rfl)⟩

/-! ### Intent-extractor theorems -/

/-- C1: code bug. On the spec's example input, `parseResponse` extracts
NO intent and leaves the tag in the visible text: `split(':', 2)` hands
`JSON.parse` the payload truncated at its second colon (`\x7b"title"`),
which fails to parse, so the occurrence is skipped — contradicting the
specified one-intent extraction with cleaned visible text. This theorem
evaluates the embedded code at the failing input. -/
theorem c1_split_limit_drops_intent : parseResponse c1Input = (c1Input, []) := rfl

/-- C6 counterexample: deleting a recognized occurrence can splice the
surrounding text into a fresh marker pair, so the visible text of the
first pass still yields an intent on the second pass — extraction is not
exhausting in one pass. -/
theorem c6_counterexample :
    ((parseResponse (parseResponse spliceInput).1).2).isEmpty = false ∧
    (parseResponse spliceInput).1 = "<system>b: \x7b\x7d</system>" := ⟨rfl, rfl⟩

theorem findSub_prefix (pat s : List Char) (h : pat.isPrefixOf s = true) :
    findSub pat s = some 0 := by
  cases s with
  | nil =>
    have hp : pat = [] := by
      simpa using List.isPrefixOf_iff_prefix.mp h
    simp [findSub, hp]
  | cons c rest => simp [findSub, h]

theorem findSub_append_ltfree (pt a s : List Char) (ha : ∀ c ∈ a, c ≠ '<') :
    findSub ('<' :: pt) (a ++ s) = (findSub ('<' :: pt) s).map (· + a.length) := by
  induction a with
  | nil =>
    cases hfs : findSub ('<' :: pt) s <;> simp [hfs]
  | cons c a' ih =>
    have hc : c ≠ '<' := ha c (by simp)
    have hbeq : ('<' == c) = false := by
      simp [beq_iff_eq]
      exact fun he => hc he.symm
    have hpre : (('<' :: pt).isPrefixOf (c :: (a' ++ s))) = false := by
      simp [List.isPrefixOf, hbeq]
    rw [List.cons_append]
    have hstep : findSub ('<' :: pt) (c :: (a' ++ s)) =
        (findSub ('<' :: pt) (a' ++ s)).map Nat.succ := by
      conv_lhs => rw [findSub]
      rw [hpre]
      simp
    rw [hstep, ih (fun c hm => ha c (by simp [hm]))]
    rcases hfs : findSub ('<' :: pt) s with _ | x
    · rfl
    · simp
      omega

theorem findSub_none_of_ltfree (pt s : List Char) (hs : ∀ c ∈ s, c ≠ '<') :
    findSub ('<' :: pt) s = none := by
  induction s with
  | nil => rfl
  | cons c rest ih =>
    have hc : c ≠ '<' := hs c (by simp)
    have hbeq : ('<' == c) = false := by
      simp [beq_iff_eq]
      exact fun he => hc he.symm
    have hpre : (('<' :: pt).isPrefixOf (c :: rest)) = false := by
      simp [List.isPrefixOf, hbeq]
    unfold findSub
    rw [hpre]
    simp only [Bool.false_eq_true, if_false]
    rw [ih (fun c hm => hs c (by simp [hm]))]
    rfl

theorem findSub_some_prefix {pat s : List Char} {i : Nat} (h : findSub pat s = some i) :
    pat.isPrefixOf (s.drop i) = true ∧ i ≤ s.length := by
  induction s generalizing i with
  | nil =>
    unfold findSub at h
    by_cases he : pat.isEmpty
    · simp only [he, if_true] at h
      cases h
      have : pat = [] := by simpa [List.isEmpty_iff] using he
      simp [this]
    · simp [he] at h
  | cons c rest ih =>
    unfold findSub at h
    by_cases hp : pat.isPrefixOf (c :: rest)
    · simp only [hp, if_true] at h
      cases h
      exact ⟨hp, by simp⟩
    · simp only [hp, Bool.false_eq_true, if_false, Option.map_eq_some'] at h
      obtain ⟨j, hj, rfl⟩ := h
      obtain ⟨h1, h2⟩ := ih hj
      exact ⟨h1, by simpa using h2⟩

theorem scanMatches_none (fuel : Nat) (s : List Char)
    (h : findSub sysOpen s = none) : scanMatches fuel s = [] := by
  cases fuel with
  | zero => rfl
  | succ f => unfold scanMatches; rw [h]

theorem dropWhile_append_cons (p : Char → Bool) (a t : List Char) (c : Char)
    (hc : p c = false) :
    List.dropWhile p (a ++ c :: t) = List.dropWhile p a ++ c :: t := by
  induction a with
  | nil => simp [List.dropWhile, hc]
  | cons x a' ih =>
    by_cases hx : p x <;> simp [List.dropWhile, hx, ih]

theorem jsTrimLeft_append_cons (a t : List Char) (c : Char) (hc : isJsWs c = false) :
    jsTrimLeft (a ++ c :: t) = jsTrimLeft a ++ c :: t :=
  dropWhile_append_cons isJsWs a t c hc

theorem jsTrimRight_append (y b : List Char) (c : Char) (hc : isJsWs c = false) :
    jsTrimRight ((y ++ [c]) ++ b) = (y ++ [c]) ++ jsTrimRight b := by
  unfold jsTrimRight
  rw [List.reverse_append, List.reverse_append]
  simp only [List.reverse_cons, List.reverse_nil, List.nil_append]
  rw [show ([c] ++ y.reverse : List Char) = c :: y.reverse from rfl]
  rw [dropWhile_append_cons isJsWs b.reverse y.reverse c hc]
  simp

theorem mem_jsTrimLeft {c : Char} {s : List Char} (h : c ∈ jsTrimLeft s) : c ∈ s :=
  (List.dropWhile_sublist isJsWs).subset h

theorem mem_jsTrimRight {c : Char} {s : List Char} (h : c ∈ jsTrimRight s) : c ∈ s := by
  unfold jsTrimRight at h
  rw [List.mem_reverse] at h
  have := (List.dropWhile_sublist isJsWs).subset h
  simpa using this

theorem mem_jsTrim {c : Char} {s : List Char} (h : c ∈ jsTrim s) : c ∈ s :=
  mem_jsTrimLeft (mem_jsTrimRight (s := jsTrimLeft s) h)

theorem sysOpen_cons : sysOpen = '<' :: "system>".data := rfl

theorem sysClose_cons : sysClose = '<' :: "/system>".data := rfl

theorem sysClose_snoc : sysClose = "</system".data ++ ['>'] := rfl

theorem sysOpen_len : sysOpen.length = 8 := rfl

theorem sysClose_len : sysClose.length = 9 := rfl

theorem jsTrim_around_tag (a m b : List Char) :
    jsTrim (a ++ (sysOpen ++ (m ++ (sysClose ++ b)))) =
      jsTrimLeft a ++ (sysOpen ++ (m ++ (sysClose ++ jsTrimRight b))) := by
  unfold jsTrim
  have h1 : jsTrimLeft (a ++ (sysOpen ++ (m ++ (sysClose ++ b)))) =
      jsTrimLeft a ++ (sysOpen ++ (m ++ (sysClose ++ b))) := by
    rw [show (a ++ (sysOpen ++ (m ++ (sysClose ++ b))) : List Char) =
        a ++ '<' :: ("system>".data ++ (m ++ (sysClose ++ b))) from by
      rw [sysOpen_cons]; rfl]
    rw [jsTrimLeft_append_cons a _ '<' (by decide), sysOpen_cons]
    rfl
  rw [h1]
  have h2 : (jsTrimLeft a ++ (sysOpen ++ (m ++ (sysClose ++ b))) : List Char) =
      ((jsTrimLeft a ++ sysOpen ++ m ++ "</system".data) ++ ['>']) ++ b := by
    rw [sysClose_snoc]
    simp [List.append_assoc]
  rw [h2, jsTrimRight_append _ b '>' (by decide), sysClose_snoc]
  simp [List.append_assoc]

theorem scanMatches_structured (f : Nat) (a m b : List Char)
    (ha : ∀ c ∈ a, c ≠ '<') (hm : ∀ c ∈ m, c ≠ '<') (hb : ∀ c ∈ b, c ≠ '<') :
    scanMatches (f + 1) (a ++ (sysOpen ++ (m ++ (sysClose ++ b)))) =
      [(sysOpen ++ (m ++ sysClose), m)] := by
  have base1 : findSub sysOpen (sysOpen ++ (m ++ (sysClose ++ b))) = some 0 :=
    findSub_prefix _ _ (List.isPrefixOf_iff_prefix.mpr (List.prefix_append _ _))
  have h1 : findSub sysOpen (a ++ (sysOpen ++ (m ++ (sysClose ++ b)))) =
      some a.length := by
    have happ := findSub_append_ltfree "system>".data a
      (sysOpen ++ (m ++ (sysClose ++ b))) ha
    rw [show ('<' :: "system>".data : List Char) = sysOpen from rfl] at happ
    rw [happ, base1]
    simp
  have hlen1 : (a ++ sysOpen).length = a.length + 8 := by
    simp [List.length_append, sysOpen_len]
  have hdrop1 : (a ++ (sysOpen ++ (m ++ (sysClose ++ b)))).drop (a.length + 8) =
      m ++ (sysClose ++ b) := by
    rw [show (a ++ (sysOpen ++ (m ++ (sysClose ++ b))) : List Char) =
        (a ++ sysOpen) ++ (m ++ (sysClose ++ b)) from by simp [List.append_assoc]]
    exact List.drop_left' hlen1
  have base2 : findSub sysClose (sysClose ++ b) = some 0 :=
    findSub_prefix _ _ (List.isPrefixOf_iff_prefix.mpr (List.prefix_append _ _))
  have h2 : findSub sysClose (m ++ (sysClose ++ b)) = some m.length := by
    have happ := findSub_append_ltfree "/system>".data m (sysClose ++ b) hm
    rw [show ('<' :: "/system>".data : List Char) = sysClose from rfl] at happ
    rw [happ, base2]
    simp
  have htake : (m ++ (sysClose ++ b)).take m.length = m :=
    List.take_left m (sysClose ++ b)
  have hdrop0 : (a ++ (sysOpen ++ (m ++ (sysClose ++ b)))).drop a.length =
      sysOpen ++ (m ++ (sysClose ++ b)) :=
    List.drop_left a (sysOpen ++ (m ++ (sysClose ++ b)))
  have hlenF : (sysOpen ++ (m ++ sysClose)).length = 8 + m.length + 9 := by
    simp [List.length_append, sysOpen_len, sysClose_len]
    omega
  have hwhole : ((a ++ (sysOpen ++ (m ++ (sysClose ++ b)))).drop a.length).take
      (8 + m.length + 9) = sysOpen ++ (m ++ sysClose) := by
    rw [hdrop0]
    rw [show (sysOpen ++ (m ++ (sysClose ++ b)) : List Char) =
        (sysOpen ++ (m ++ sysClose)) ++ b from by simp [List.append_assoc]]
    exact List.take_left' hlenF
  have hlenAF : (a ++ (sysOpen ++ (m ++ sysClose))).length =
      a.length + 8 + m.length + 9 := by
    simp [List.length_append, sysOpen_len, sysClose_len]
    omega
  have hrest : (a ++ (sysOpen ++ (m ++ (sysClose ++ b)))).drop
      (a.length + 8 + m.length + 9) = b := by
    rw [show (a ++ (sysOpen ++ (m ++ (sysClose ++ b))) : List Char) =
        (a ++ (sysOpen ++ (m ++ sysClose))) ++ b from by simp [List.append_assoc]]
    exact List.drop_left' hlenAF
  have hnone : findSub sysOpen b = none := by
    rw [sysOpen_cons]
    exact findSub_none_of_ltfree _ b hb
  conv_lhs => rw [scanMatches]
  rw [h1]
  dsimp only
  rw [hdrop1, h2]
  dsimp only
  rw [htake, hwhole, hrest, scanMatches_none f b hnone]

/-- C10: on any input with no occurrence of the `<system>...</system>`
marker pair, extraction returns the input with leading and trailing
(JavaScript) whitespace removed, and no intents. -/
theorem c10_no_tag_trims : ∀ (s : String), ¬ HasMarkerPair s.data →
    parseResponse s = (⟨jsTrim s.data⟩, []) := by
  intro s h
  have hscan : scanMatches (s.data.length + 1) s.data = [] := by
    rcases ho : findSub sysOpen s.data with _ | i
    · exact scanMatches_none _ _ ho
    · rcases hc : findSub sysClose (s.data.drop (i + 8)) with _ | j
      · conv_lhs => rw [scanMatches]
        rw [ho]
        dsimp only
        rw [hc]
      · exfalso
        apply h
        obtain ⟨hpi, hii⟩ := findSub_some_prefix ho
        obtain ⟨hpj, hjj⟩ := findSub_some_prefix hc
        refine ⟨i, ?_, hpi, j, ?_, hpj⟩
        · simp only [List.mem_range]
          omega
        · simp only [List.mem_range]
          rw [List.length_drop] at hjj
          omega
  unfold parseResponse
  dsimp only
  rw [hscan]
  rfl

/-- C6 amended: one-pass exhaustion does hold for inputs made of one
tagged occurrence surrounded by text that contains no `<` at all (the
shape the prompt instructs the model to produce): whether the payload
parses (tag removed, remainder has no marker) or fails to parse (the
same group fails again), the second pass yields no intents. -/
theorem c6_amended : ∀ (a m b : List Char),
    (∀ c ∈ a, c ≠ '<') → (∀ c ∈ m, c ≠ '<') → (∀ c ∈ b, c ≠ '<') →
    (parseResponse (parseResponse
      ⟨a ++ (sysOpen ++ (m ++ (sysClose ++ b)))⟩).1).2 = [] := by
  intro a m b ha hm hb
  have hscan1 : scanMatches ((a ++ (sysOpen ++ (m ++ (sysClose ++ b)))).length + 1)
      (a ++ (sysOpen ++ (m ++ (sysClose ++ b)))) =
      [(sysOpen ++ (m ++ sysClose), m)] :=
    scanMatches_structured (a ++ (sysOpen ++ (m ++ (sysClose ++ b)))).length a m b ha hm hb
  rcases hpi : parseIntent m with _ | it
  · -- payload fails to parse: the tag stays in the visible text, and the
    -- second pass re-parses the same group, failing again
    have hfirst : (parseResponse ⟨a ++ (sysOpen ++ (m ++ (sysClose ++ b)))⟩).1 =
        ⟨jsTrim (a ++ (sysOpen ++ (m ++ (sysClose ++ b))))⟩ := by
      unfold parseResponse
      dsimp only
      rw [hscan1]
      simp [processMatches, hpi]
    rw [hfirst]
    have htrim : jsTrim (a ++ (sysOpen ++ (m ++ (sysClose ++ b)))) =
        jsTrimLeft a ++ (sysOpen ++ (m ++ (sysClose ++ jsTrimRight b))) :=
      jsTrim_around_tag a m b
    have ha2 : ∀ c ∈ jsTrimLeft a, c ≠ '<' := fun c hc => ha c (mem_jsTrimLeft hc)
    have hb2 : ∀ c ∈ jsTrimRight b, c ≠ '<' := fun c hc => hb c (mem_jsTrimRight hc)
    unfold parseResponse
    dsimp only
    rw [htrim]
    rw [scanMatches_structured
      (jsTrimLeft a ++ (sysOpen ++ (m ++ (sysClose ++ jsTrimRight b)))).length
      (jsTrimLeft a) m (jsTrimRight b) ha2 hm hb2]
    simp [processMatches, hpi]
  · -- payload parses: the tag is removed, and nothing in the remaining
    -- text can form a marker pair
    have hwfull : (sysOpen ++ (m ++ sysClose) : List Char) =
        '<' :: ("system>".data ++ (m ++ sysClose)) := by
      rw [sysOpen_cons]
      rfl
    have hfw : findSub (sysOpen ++ (m ++ sysClose))
        (a ++ (sysOpen ++ (m ++ (sysClose ++ b)))) = some a.length := by
      have hbase : findSub (sysOpen ++ (m ++ sysClose))
          (sysOpen ++ (m ++ (sysClose ++ b))) = some 0 := by
        apply findSub_prefix
        apply List.isPrefixOf_iff_prefix.mpr
        rw [show (sysOpen ++ (m ++ (sysClose ++ b)) : List Char) =
            (sysOpen ++ (m ++ sysClose)) ++ b from by simp [List.append_assoc]]
        exact List.prefix_append _ _
      have happ := findSub_append_ltfree ("system>".data ++ (m ++ sysClose)) a
        (sysOpen ++ (m ++ (sysClose ++ b))) ha
      rw [← hwfull] at happ
      rw [happ, hbase]
      simp
    have hlen : (a ++ (sysOpen ++ (m ++ sysClose))).length =
        a.length + (sysOpen ++ (m ++ sysClose)).length := List.length_append _ _
    have hrm : removeFirst (sysOpen ++ (m ++ sysClose))
        (a ++ (sysOpen ++ (m ++ (sysClose ++ b)))) = a ++ b := by
      unfold removeFirst
      rw [hfw]
      dsimp only
      have ht : (a ++ (sysOpen ++ (m ++ (sysClose ++ b)))).take a.length = a :=
        List.take_left a _
      have hd : (a ++ (sysOpen ++ (m ++ (sysClose ++ b)))).drop
          (a.length + (sysOpen ++ (m ++ sysClose)).length) = b := by
        rw [show (a ++ (sysOpen ++ (m ++ (sysClose ++ b))) : List Char) =
            (a ++ (sysOpen ++ (m ++ sysClose))) ++ b from by simp [List.append_assoc]]
        exact List.drop_left' hlen
      rw [ht, hd]
    have hfirst : (parseResponse ⟨a ++ (sysOpen ++ (m ++ (sysClose ++ b)))⟩).1 =
        ⟨jsTrim (a ++ b)⟩ := by
      unfold parseResponse
      dsimp only
      rw [hscan1]
      simp [processMatches, hpi, hrm]
    rw [hfirst]
    have hs2 : ∀ c ∈ jsTrim (a ++ b), c ≠ '<' := by
      intro c hc
      rcases List.mem_append.mp (mem_jsTrim hc) with h | h
      exacts [ha c h, hb c h]
    have hnone2 : findSub sysOpen (jsTrim (a ++ b)) = none := by
      rw [sysOpen_cons]
      exact findSub_none_of_ltfree _ _ hs2
    unfold parseResponse
    dsimp only
    rw [scanMatches_none _ _ hnone2]
    rfl

/-- C6 witness: the amended theorem applied at a concrete input. -/
theorem c6_amended_witness :
    (∀ c ∈ ("Here is a plan. " : String).data, c ≠ '<') ∧
    (parseResponse (parseResponse
      ⟨("Here is a plan. " : String).data ++ (sysOpen ++ (("x" : String).data ++
        (sysClose ++ (" Go!" : String).data)))⟩).1).2 = [] :=
  ⟨by decide,
   c6_amended ("Here is a plan. " : String).data ("x" : String).data
     (" Go!" : String).data (by decide) (by decide) (by decide)⟩

/-- C10 witness: the theorem applied at a padded tag-free input. -/
theorem c10_witness :
    ¬ HasMarkerPair ("  no tags here  " : String).data ∧
    parseResponse "  no tags here  " =
      (⟨jsTrim ("  no tags here  " : String).data⟩, []) :=
  ⟨by decide, c10_no_tag_trims "  no tags here  " (by decide)⟩
